import Mathlib

/-!
Verification development for the `translog` pipeline (Go sources:
`worker/log_parser.go` under `src/unnamed/part_000`, and `src/worker/file.go`).

The Go code is shallowly embedded:
* the `viper` configuration store becomes an association list of typed values
  (`Viper`), read through `getBool` / `getString` / `getStringSlice` / `isSet`,
  mirroring the viper zero-value-on-miss behaviour;
* Go maps (`map[string]interface{}`) become association lists observed through
  `List.lookup`; a Go map assignment `v[k] = x` is `mapSet`, which shadows any
  earlier binding, so the extensional (lookup) view coincides with the Go map;
* external standard-library calls that the repository merely invokes are
  either modelled concretely where their behaviour is simple and load-bearing
  (`strconv.ParseInt` / `ParseBool` / `ParseFloat`) or abstracted as function
  parameters where only success or failure matters (`time.Parse` as a
  `TimeParse` argument, `url.Parse`+`Query()` as a `UriQuery` argument,
  `regexp.Compile` as a compile argument, `regexp` matching as the
  `Regex.findSubmatch` field, `json.Marshal` as a marshal argument);
* a nil-pointer dereference (calling a method of the nil compiled regex) is
  the distinguished result `ParseResult.crash`, and Go `error` returns are
  `ParseResult.err`.

Floating-point values are represented by `GoFloat`: NaN and the infinities are
explicit constructors and finite values carry the exact rational denoted by the
accepted literal (IEEE-754 rounding, hexadecimal floats, digit-separating
underscores and range overflow of `strconv.ParseFloat` are not modelled; no
claim below depends on the numeric value of a parsed float, only on
NaN-ness and on the zero literal).
-/

/-! ## Configuration store (the viper accessors used by the code) -/

/-- A typed value held by the configuration store. -/
inductive VVal where
  | bool (b : Bool)
  | str (s : String)
  | strs (l : List String)
  deriving DecidableEq

/-- The configuration store: named settings, read-only for the core. -/
abbrev Viper := List (String × VVal)

/-- `viper.IsSet(key)`. -/
def isSet (cfg : Viper) (key : String) : Bool :=
  (cfg.lookup key).isSome

/-- `viper.GetBool(key)`: the stored boolean, `false` when unset or not a boolean. -/
def getBool (cfg : Viper) (key : String) : Bool :=
  match cfg.lookup key with
  | some (.bool b) => b
  | _ => false

/-- `viper.GetString(key)`: the stored string, `""` when unset or not a string. -/
def getString (cfg : Viper) (key : String) : String :=
  match cfg.lookup key with
  | some (.str s) => s
  | _ => ""

/-- `viper.GetStringSlice(key)`: the stored list, `[]` when unset or not a list. -/
def getStringSlice (cfg : Viper) (key : String) : List String :=
  match cfg.lookup key with
  | some (.strs l) => l
  | _ => []

/-! ## Constants of log_parser.go (values kept exactly as in the source,
including the `"time.reopen"` value of `configTailReopen`). -/

def configParseKeysToIgnore : String := "parse.keys_to_ignore"

def configParseTimePatterns : String := "parse.time_patterns"

def configParsePattern : String := "parse.pattern"

def configTailReopen : String := "time.reopen"

/-- `DefaultParseLogPattern` from log_parser.go. -/
def DefaultParseLogPattern : String := ""

/-! ## Typed values of an event -/

/-- Abstract carrier for Go `time.Time` results of `time.Parse`. -/
structure GoTime where
  ticks : Int
  deriving DecidableEq

/-- Model of a Go `float64` as far as the claims observe it. -/
inductive GoFloat where
  | nan
  | inf (neg : Bool)
  | num (q : ℚ)
  deriving DecidableEq

/-- `math.IsNaN`. -/
def GoFloat.isNaN : GoFloat → Bool
  | .nan => true
  | _ => false

/-- The typed values `parseString` can place in an event: exactly
timestamp, 64-bit integer, boolean, 64-bit float, or text. -/
inductive Value where
  | time (t : GoTime)
  | int (i : Int)
  | bool (b : Bool)
  | float (f : GoFloat)
  | text (s : String)
  deriving DecidableEq

/-- An event: the Go `map[string]interface{}`, observed through `List.lookup`. -/
abbrev Event := List (String × Value)

/-- Go map assignment `v[k] = x`: the new binding shadows any older one. -/
def mapSet (v : Event) (k : String) (x : Value) : Event :=
  (k, x) :: v

/-- Abstraction of `time.Parse layout value`: `some` a time on success. -/
abbrev TimeParse := String → String → Option GoTime

/-- Abstraction of `url.Parse` followed by `.Query()`: `none` when
`url.Parse` fails, otherwise the query parameters (key, values) in the
(arbitrary) Go map iteration order. -/
abbrev UriQuery := String → Option (List (String × List String))

/-! ## Models of the strconv parsers called by `parseString` -/

/-- Leading decimal digits of a character list, and the remainder. -/
def takeDigits : List Char → List Char × List Char
  | [] => ([], [])
  | c :: rest =>
    if c.isDigit then
      let r := takeDigits rest
      (c :: r.1, r.2)
    else ([], c :: rest)

/-- Numeric value of a digit list. -/
def digitsVal (ds : List Char) : Nat :=
  ds.foldl (fun a c => a * 10 + (c.toNat - Char.toNat '0')) 0

/-- Shared core of `strconv.ParseInt(s, 10, 64)` after the sign: all
remaining characters must be digits and the value must fit in int64
(a range failure makes ParseInt return a non-nil error). -/
def parseInt64Core (neg : Bool) (cs : List Char) : Option Int :=
  let r := takeDigits cs
  if r.1.isEmpty ∨ ¬ r.2.isEmpty then none
  else
    let n := digitsVal r.1
    if neg then
      if n ≤ 2 ^ 63 then some (-(n : Int)) else none
    else
      if n ≤ 2 ^ 63 - 1 then some (n : Int) else none

/-- `strconv.ParseInt(s, 10, 64)` as used by parseString (base 10 is
explicit, so digit-separating underscores are not accepted). -/
def parseInt64 (s : String) : Option Int :=
  match s.data with
  | [] => none
  | '+' :: rest => parseInt64Core false rest
  | '-' :: rest => parseInt64Core true rest
  | cs => parseInt64Core false cs

/-- `strconv.ParseBool`: exactly the canonical forms, nothing else. -/
def parseBool (s : String) : Option Bool :=
  if s = "1" ∨ s = "t" ∨ s = "T" ∨ s = "TRUE" ∨ s = "true" ∨ s = "True" then some true
  else if s = "0" ∨ s = "f" ∨ s = "F" ∨ s = "FALSE" ∨ s = "false" ∨ s = "False" then some false
  else none

/-- ASCII lowercasing, as strconv uses when matching float specials. -/
def asciiLower (s : String) : String :=
  String.mk (s.data.map Char.toLower)

/-- The special float spellings accepted by `strconv.ParseFloat`:
optionally signed infinity, and unsigned NaN, case-insensitively. -/
def parseFloatSpecial (s : String) : Option GoFloat :=
  let l := asciiLower s
  if l = "inf" ∨ l = "+inf" ∨ l = "infinity" ∨ l = "+infinity" then some (.inf false)
  else if l = "-inf" ∨ l = "-infinity" then some (.inf true)
  else if l = "nan" then some .nan
  else none

/-- Decimal mantissa: digits, optionally with one decimal point, at least
one digit overall; returns its rational value and the unconsumed rest. -/
def parseMantissa (cs : List Char) : Option (ℚ × List Char) :=
  let ip := takeDigits cs
  match ip.2 with
  | '.' :: rest2 =>
    let fp := takeDigits rest2
    if ip.1.isEmpty ∧ fp.1.isEmpty then none
    else some ((digitsVal ip.1 : ℚ) + (digitsVal fp.1 : ℚ) / (10 : ℚ) ^ fp.1.length, fp.2)
  | _ => if ip.1.isEmpty then none else some ((digitsVal ip.1 : ℚ), ip.2)

/-- An optionally signed nonempty digit run (the exponent body). -/
def parseSignedDigits (cs : List Char) : Option (Int × List Char) :=
  let sr : Int × List Char :=
    match cs with
    | '+' :: r => (1, r)
    | '-' :: r => (-1, r)
    | r => (1, r)
  let ds := takeDigits sr.2
  if ds.1.isEmpty then none else some (sr.1 * (digitsVal ds.1 : Int), ds.2)

/-- Optional exponent part `e`/`E` followed by a signed digit run. -/
def parseExp : List Char → Option (Int × List Char)
  | 'e' :: rest => parseSignedDigits rest
  | 'E' :: rest => parseSignedDigits rest
  | cs => some (0, cs)

/-- `strconv.ParseFloat(s, 64)`: specials, else an optionally signed decimal
literal with optional exponent, the whole string consumed. -/
def parseFloat64 (s : String) : Option GoFloat :=
  match parseFloatSpecial s with
  | some f => some f
  | none =>
    let sr : Bool × List Char :=
      match s.data with
      | '+' :: r => (false, r)
      | '-' :: r => (true, r)
      | r => (false, r)
    match parseMantissa sr.2 with
    | none => none
    | some (m, rest) =>
      match parseExp rest with
      | none => none
      | some (e, rest2) =>
        if rest2.isEmpty then some (.num ((if sr.1 then -m else m) * (10 : ℚ) ^ e))
        else none

/-! ## The fixed fallback time formats of `parseString` (the Go layout
strings, in the exact order the source tries them) -/

def nginxFormat : String := "02/Jan/2006:15:04:05 -0700"

def timeANSIC : String := "Mon Jan _2 15:04:05 2006"

def timeUnixDate : String := "Mon Jan _2 15:04:05 MST 2006"

def timeRubyDate : String := "Mon Jan 02 15:04:05 -0700 2006"

def timeRFC822 : String := "02 Jan 06 15:04 MST"

def timeRFC822Z : String := "02 Jan 06 15:04 -0700"

def timeRFC850 : String := "Monday, 02-Jan-06 15:04:05 MST"

def timeRFC1123 : String := "Mon, 02 Jan 2006 15:04:05 MST"

def timeRFC1123Z : String := "Mon, 02 Jan 2006 15:04:05 -0700"

def timeRFC3339 : String := "2006-01-02T15:04:05Z07:00"

def timeRFC3339Nano : String := "2006-01-02T15:04:05.999999999Z07:00"

/-- The fallback formats in source order (for the spec-side `inferSpec`). -/
def fallbackFormats : List String :=
  [nginxFormat, timeANSIC, timeUnixDate, timeRubyDate, timeRFC822, timeRFC822Z,
   timeRFC850, timeRFC1123, timeRFC1123Z, timeRFC3339, timeRFC3339Nano]

/-! ## parseString (log_parser.go lines 70-140) -/

/-- `parseString(ts, config)`: the configured time patterns in order, the
eleven hard-coded fallback formats in source order, then ParseInt,
ParseBool, ParseFloat (a NaN float becomes the float zero), else the text. -/
def parseString (tp : TimeParse) (ts : String) (config : Viper) : Value :=
  match (getStringSlice config configParseTimePatterns).findSome?
      (fun timePattern => tp timePattern ts) with
  | some t => .time t
  | none =>
  match tp nginxFormat ts with
  | some t => .time t
  | none =>
  match tp timeANSIC ts with
  | some t => .time t
  | none =>
  match tp timeUnixDate ts with
  | some t => .time t
  | none =>
  match tp timeRubyDate ts with
  | some t => .time t
  | none =>
  match tp timeRFC822 ts with
  | some t => .time t
  | none =>
  match tp timeRFC822Z ts with
  | some t => .time t
  | none =>
  match tp timeRFC850 ts with
  | some t => .time t
  | none =>
  match tp timeRFC1123 ts with
  | some t => .time t
  | none =>
  match tp timeRFC1123Z ts with
  | some t => .time t
  | none =>
  match tp timeRFC3339 ts with
  | some t => .time t
  | none =>
  match tp timeRFC3339Nano ts with
  | some t => .time t
  | none =>
  match parseInt64 ts with
  | some pi => .int pi
  | none =>
  match parseBool ts with
  | some pb => .bool pb
  | none =>
  match parseFloat64 ts with
  | some pf => if !pf.isNaN then .float pf else .float (.num 0)
  | none => .text ts

/-- Modelled from the spec, section 4.1: the documented resolution order of
`infer` stated as a first-success scan of the candidate time formats
(configured ones first, then the fixed fallbacks), then integer, boolean and
float parses with the NaN-to-zero rule, else the unchanged text. Used only
as the comparison point of the refinement claim about `parseString`. -/
def inferSpec (tp : TimeParse) (raw : String) (timeFormats : List String) : Value :=
  match (timeFormats ++ fallbackFormats).findSome? (fun timePattern => tp timePattern raw) with
  | some t => .time t
  | none =>
  match parseInt64 raw with
  | some i => .int i
  | none =>
  match parseBool raw with
  | some b => .bool b
  | none =>
  match parseFloat64 raw with
  | some f => if f.isNaN then .float (.num 0) else .float f
  | none => .text raw

/-! ## Key namer (log_parser.go lines 47-54) -/

/-- `newKeyName(k, m)`: keep prepending `_` until the name is free.
Termination measure: a found key is shorter than the total padded length of
the keys of `m`, and each retry lengthens the candidate by one. -/
def newKeyName (k : String) (m : Event) : String :=
  if h : (m.lookup k).isSome then newKeyName ("_" ++ k) m else k
termination_by (m.map (fun p => p.1.length + 1)).sum - k.length
decreasing_by
  have h1 : ("_" : String).length = 1 := rfl
  have hlen : ("_" ++ k).length = k.length + 1 := by
    rw [String.length_append, h1]
    omega
  have hbound : k.length < (m.map (fun p => p.1.length + 1)).sum := by
    clear hlen h1
    induction m with
    | nil => simp [List.lookup] at h
    | cons p t ih =>
      obtain ⟨k1, v1⟩ := p
      rw [List.lookup] at h
      cases hk : k == k1 with
      | true =>
        have hkk : k = k1 := by simpa [beq_iff_eq] using hk
        subst hkk
        simp only [List.map_cons, List.sum_cons]
        omega
      | false =>
        rw [hk] at h
        have := ih h
        simp only [List.map_cons, List.sum_cons]
        omega
  omega

/-! ## shouldIgnore (log_parser.go lines 56-68) -/

/-- `sliceContains(list, a)`: linear scan, exactly as in the source. -/
def sliceContains (list : List String) (a : String) : Bool :=
  match list with
  | [] => false
  | b :: rest => if b == a then true else sliceContains rest a

/-- `worker.shouldIgnore(key)`: empty keys and configured keys are ignored. -/
def shouldIgnore (cfg : Viper) (key : String) : Bool :=
  let keysToIgnore := getStringSlice cfg configParseKeysToIgnore
  key == "" || sliceContains keysToIgnore key

/-! ## ParseURI (log_parser.go lines 147-160) -/

/-- The body of the `for k, kvs := range q` loop of `ParseURI`. -/
def parseURIloop (tp : TimeParse) (cfg : Viper) :
    List (String × List String) → Event → Event
  | [], v => v
  | (k, kvs) :: rest, v =>
    let newKey := newKeyName k v
    let v1 :=
      if !shouldIgnore cfg newKey then
        match kvs with
        | [] => v
        | k0 :: _ => mapSet v newKey (parseString tp k0 cfg)
      else v
    parseURIloop tp cfg rest v1

/-- `worker.ParseURI(uri, v)`: skip empty uri and unparsable uri, otherwise
fold the query parameters into the same event. -/
def ParseURI (tp : TimeParse) (uq : UriQuery) (cfg : Viper)
    (uri : String) (v : Event) : Event :=
  if uri ≠ "" then
    match uq uri with
    | some q => parseURIloop tp cfg q v
    | none => v
  else v

/-! ## ParseEvents (log_parser.go lines 164-182) -/

/-- A compiled pattern, reduced to the two methods the code calls on it. -/
structure Regex where
  subexpNames : List String
  findSubmatch : String → Option (List String)

/-- The fields of `LogParser` that `Init` and `ParseEvents` touch.
`regex = none` is the nil pointer before a successful `Init`. -/
structure LogParser where
  config : Viper
  regex : Option Regex

/-- Result of `ParseEvents`: the event, the non-match error, or the crash of
dereferencing the nil compiled regex. -/
inductive ParseResult where
  | ok (ev : Event)
  | err (msg : String)
  | crash
  deriving DecidableEq

/-- Lookup inside a successful result (`none` on error or crash). -/
def ParseResult.okLookup : ParseResult → String → Option Value
  | .ok ev, key => ev.lookup key
  | _, _ => none

/-- Whether the result is a successfully parsed event. -/
def ParseResult.isOk : ParseResult → Bool
  | .ok _ => true
  | _ => false

/-- The body of the `for i, submatch := range match` loop of `ParseEvents`,
over the (name, submatch) pairs. -/
def parseEventsStep (tp : TimeParse) (uq : UriQuery) (cfg : Viper)
    (v : Event) (p : String × String) : Event :=
  let name := p.1
  let v1 :=
    if !shouldIgnore cfg name then mapSet v name (parseString tp p.2 cfg) else v
  if name == "uri" then ParseURI tp uq cfg p.2 v1 else v1

/-- The loop of `ParseEvents` over all capture groups. -/
def parseEventsLoop (tp : TimeParse) (uq : UriQuery) (cfg : Viper) :
    List (String × String) → Event → Event
  | [], v => v
  | p :: rest, v => parseEventsLoop tp uq cfg rest (parseEventsStep tp uq cfg v p)

/-- `worker.ParseEvents(line)`. On a nil compiled regex the Go code calls
`FindStringSubmatch` on a nil pointer, which panics: `crash`. The group
names and submatches are paired positionally (`names[i]`, `match[i]`). -/
def ParseEvents (tp : TimeParse) (uq : UriQuery)
    (worker : LogParser) (line : String) : ParseResult :=
  match worker.regex with
  | none => .crash
  | some regex =>
    match regex.findSubmatch line with
    | some mtch =>
      .ok (parseEventsLoop tp uq worker.config (regex.subexpNames.zip mtch) [])
    | none => .err ("Line " ++ line ++ " did not match pattern.")

/-! ## Init (log_parser.go lines 199-211) -/

/-- `worker.Init()`: compile the configured pattern; on a compile error only
log a warning and return, leaving `regex` untouched (still nil). -/
def Init (regexpCompile : String → Option Regex) (worker : LogParser) : LogParser :=
  let pattern := getString worker.config configParsePattern
  let pattern := if pattern == "" then DefaultParseLogPattern else pattern
  match regexpCompile pattern with
  | none => worker
  | some regex => { worker with regex := some regex }

/-! ## convertConfig (log_parser.go lines 185-197) -/

inductive SeekWhence where
  | seekEnd
  deriving DecidableEq

/-- `tail.SeekInfo`: the literal `&tail.SeekInfo{0, os.SEEK_END}`. -/
structure SeekInfo where
  offset : Int
  whence : SeekWhence
  deriving DecidableEq

/-- The fields of `tail.Config` the code assigns (Logger is not modelled).
The zero value has no seek location, which makes the tail library start at
the beginning of the file. -/
structure TailConfig where
  location : Option SeekInfo := none
  reOpen : Bool := false
  follow : Bool := false
  deriving DecidableEq

/-- `worker.convertConfig()`: note the source reads the literal keys
`"tail.from_beginng"` and (through `configTailReopen`) `"time.reopen"`. -/
def convertConfig (cfg : Viper) : TailConfig :=
  let config : TailConfig := {}
  let config :=
    if !getBool cfg "tail.from_beginng" then
      { config with location := some { offset := 0, whence := .seekEnd } }
    else config
  let config :=
    if isSet cfg "tail.reopen" then
      { config with reOpen := getBool cfg configTailReopen }
    else config
  { config with follow := true }

/-! ## Sink worker (worker/file.go) -/

/-- An output file handle: its path and whether it is still open. A write
to a closed (or nil) handle fails at the OS level and changes no file;
the Go code ignores the error return of `WriteString`. -/
structure FileHandle where
  path : String
  isOpen : Bool
  deriving DecidableEq

/-- The mutable fields of `FileWorker` used by the write path. The zero
value (empty name, nil handle) is the state before `Init`. -/
structure FileWorkerState where
  outFileName : String := ""
  out : Option FileHandle := none
  deriving DecidableEq

/-- The observable file system: per path, the list of strings appended. -/
abbrev Fs := List (String × List String)

/-- Appending to a file (created on first write, as `O_APPEND|O_CREATE`). -/
def fsAppend (fs : Fs) (path : String) (s : String) : Fs :=
  (path, ((fs.lookup path).getD []) ++ [s]) :: fs

/-- `ConfiguredFileOutputName()` from file.go. -/
def ConfiguredFileOutputName (cfg : Viper) : String :=
  let key := "file.output"
  if isSet cfg key then getString cfg key else "output.jsonl"

/-- What one call of `CachedFileHandle` produces: the updated worker state,
the returned handle, the handles closed during the call, and the warnings
logged. -/
structure CachedResult where
  state : FileWorkerState
  handle : Option FileHandle
  closed : List FileHandle
  warnings : List String
  deriving DecidableEq

/-- `w.CachedFileHandle()`: when the configured path differs from the cached
one, close the old handle, then try to open the new path; on an open failure
log a warning and leave `outFileName` and `out` untouched (so `out` still
refers to the just-closed handle, and the next call retries). -/
def CachedFileHandle (cfg : Viper) (openable : String → Bool)
    (w : FileWorkerState) : CachedResult :=
  let fileName := ConfiguredFileOutputName cfg
  if fileName ≠ w.outFileName then
    let closedOld := w.out.toList
    let w1 : FileWorkerState :=
      { w with out := w.out.map (fun h => { h with isOpen := false }) }
    if openable fileName then
      let handle : FileHandle := { path := fileName, isOpen := true }
      { state := { outFileName := fileName, out := some handle },
        handle := some handle, closed := closedOld, warnings := [] }
    else
      { state := w1, handle := w1.out, closed := closedOld,
        warnings := ["Unable to create output file " ++ fileName] }
  else
    { state := w, handle := w.out, closed := [], warnings := [] }

/-- `out.WriteString(s)` with the error ignored: appends only through an
open handle. -/
def writeString (fs : Fs) (h : Option FileHandle) (s : String) : Fs :=
  match h with
  | none => fs
  | some handle => if handle.isOpen then fsAppend fs handle.path s else fs

/-- The result of one `case obj := <-w.WorkChannel` iteration of `Work`. -/
structure WorkResult where
  fs : Fs
  state : FileWorkerState
  closed : List FileHandle
  warnings : List String
  deriving DecidableEq

/-- One iteration of the `Work` loop on a received object: marshal (skip the
write on a marshal error), re-evaluate the handle, write the line and the
newline. -/
def workStep (cfg : Viper) (openable : String → Bool)
    (marshal : Event → Option String) (fs : Fs) (w : FileWorkerState)
    (obj : Event) : WorkResult :=
  match marshal obj with
  | none => { fs := fs, state := w, closed := [], warnings := ["Unable to marshal object"] }
  | some line =>
    let r := CachedFileHandle cfg openable w
    let fs1 := writeString fs r.handle line
    let fs2 := writeString fs1 r.handle "\n"
    { fs := fs2, state := r.state, closed := r.closed, warnings := r.warnings }

/-- The `Work` loop over a queue of received objects, each paired with the
configuration visible at that write (file.output may change live). -/
def Work (openable : String → Bool) (marshal : Event → Option String) :
    List (Viper × Event) → Fs → FileWorkerState → Fs × FileWorkerState
  | [], fs, w => (fs, w)
  | (cfg, obj) :: rest, fs, w =>
    let r := workStep cfg openable marshal fs w obj
    Work openable marshal rest r.fs r.state

/-! ## Remaining definitions used by statements -/

/-- `n` leading underscores, the shape of the names `newKeyName` builds. -/
def underscores : Nat → String
  | 0 => ""
  | n + 1 => "_" ++ underscores n

/-- Concrete compiled pattern: the behaviour of
`(?P<uri>\S+) (?P<q>\S+)` on the line `/x?q=1 hello` (group 0 is the whole
match; `\S+` makes the submatches immediate). -/
def c4Regex : Regex where
  subexpNames := ["", "uri", "q"]
  findSubmatch := fun line =>
    if line = "/x?q=1 hello" then some ["/x?q=1 hello", "/x?q=1", "hello"] else none

/-- Concrete `url.Parse`+`Query()` behaviour on the uri `/x?q=1`. -/
def c4UriQuery : UriQuery := fun u =>
  if u = "/x?q=1" then some [("q", ["1"])] else none

/-- The parse of `/x?q=1 hello` under that pattern with an empty
configuration (nothing ignored, no configured time patterns). -/
def c4Result : ParseResult :=
  ParseEvents (fun _ _ => none) c4UriQuery
    { config := [], regex := some c4Regex } "/x?q=1 hello"

/-- The exact strings `strconv.ParseBool` accepts (Go canonical forms). -/
def goBoolForms : List String :=
  ["1", "t", "T", "TRUE", "true", "True", "0", "f", "F", "FALSE", "false", "False"]

/-! # Theorems

General helper lemmas first, then one theorem per claim (with witnesses and
counterexamples where called for). -/

/-- A key at most as long as any key of a list it is found in (padded sum). -/
theorem lookup_isSome_len_lt {k : String} {m : Event}
    (h : (m.lookup k).isSome = true) :
    k.length < (m.map (fun p => p.1.length + 1)).sum := by
  induction m with
  | nil => simp [List.lookup] at h
  | cons p t ih =>
    obtain ⟨k1, v1⟩ := p
    rw [List.lookup] at h
    cases hk : k == k1 with
    | true =>
      have hkk : k = k1 := by simpa [beq_iff_eq] using hk
      subst hkk
      simp only [List.map_cons, List.sum_cons]
      omega
    | false =>
      rw [hk] at h
      have := ih h
      simp only [List.map_cons, List.sum_cons]
      omega

/-- Reading back the key just set. -/
theorem lookup_mapSet_self (v : Event) (k : String) (x : Value) :
    (mapSet v k x).lookup k = some x := by
  rw [mapSet, List.lookup]
  rw [beq_self_eq_true]

/-- Setting a different key does not change a lookup. -/
theorem lookup_mapSet_ne {v : Event} {k key : String} (x : Value)
    (h : key ≠ k) :
    (mapSet v k x).lookup key = v.lookup key := by
  rw [mapSet, List.lookup]
  rw [beq_eq_false_iff_ne.mpr h]

/-- `sliceContains` finds every member. -/
theorem sliceContains_of_mem {l : List String} {a : String} (h : a ∈ l) :
    sliceContains l a = true := by
  induction l with
  | nil => cases h
  | cons b t ih =>
    rw [sliceContains]
    by_cases hb : (b == a) = true
    · rw [if_pos hb]
    · rw [if_neg hb]
      rcases List.mem_cons.mp h with hba | hm
      · exact absurd (by rw [hba, beq_self_eq_true]) hb
      · exact ih hm

/-- A key listed in `parse.keys_to_ignore` is ignored. -/
theorem shouldIgnore_of_mem {cfg : Viper} {key : String}
    (h : key ∈ getStringSlice cfg configParseKeysToIgnore) :
    shouldIgnore cfg key = true := by
  simp only [shouldIgnore]
  rw [sliceContains_of_mem h]
  simp

/-- Appending one underscore in front commutes with the underscore run. -/
theorem underscores_shift (n : Nat) (k : String) :
    underscores n ++ ("_" ++ k) = underscores (n + 1) ++ k := by
  induction n with
  | zero => rfl
  | succ n ih =>
    show ("_" ++ underscores n) ++ ("_" ++ k) = ("_" ++ underscores (n + 1)) ++ k
    rw [String.append_assoc, ih, String.append_assoc]

/-- Full characterisation of `newKeyName`, by strong induction on the
termination measure: the result is never a present key, and it is the
candidate with the least sufficient number of leading underscores. -/
theorem newKeyName_core :
    ∀ (N : Nat) (k : String) (m : Event),
      (m.map (fun p => p.1.length + 1)).sum - k.length ≤ N →
      m.lookup (newKeyName k m) = none ∧
        ∃ n, newKeyName k m = underscores n ++ k ∧
          ∀ j, j < n → (m.lookup (underscores j ++ k)).isSome = true := by
  intro N
  induction N with
  | zero =>
    intro k m hN
    have hnone : ¬ (m.lookup k).isSome = true := by
      intro hs
      have hb := lookup_isSome_len_lt hs
      omega
    rw [newKeyName, dif_neg hnone]
    refine ⟨Option.not_isSome_iff_eq_none.mp hnone, 0, rfl, ?_⟩
    intro j hj
    omega
  | succ N ih =>
    intro k m hN
    rw [newKeyName]
    by_cases hs : (m.lookup k).isSome = true
    · rw [dif_pos hs]
      have hb := lookup_isSome_len_lt hs
      have h1 : ("_" : String).length = 1 := rfl
      have hlen : ("_" ++ k).length = k.length + 1 := by
        rw [String.length_append, h1]
        omega
      have hN2 : (m.map (fun p => p.1.length + 1)).sum - ("_" ++ k).length ≤ N := by
        omega
      obtain ⟨h2, n, h3, h4⟩ := ih ("_" ++ k) m hN2
      refine ⟨h2, n + 1, ?_, ?_⟩
      · rw [h3, underscores_shift]
      · intro j hj
        cases j with
        | zero => exact hs
        | succ j1 =>
          have hj1 : j1 < n := by omega
          have := h4 j1 hj1
          rw [← underscores_shift]
          exact this
    · rw [dif_neg hs]
      exact ⟨Option.not_isSome_iff_eq_none.mp hs, 0, rfl, fun j hj => by omega⟩

/-- The name `newKeyName` returns is free in the event. -/
theorem newKeyName_not_found (k : String) (m : Event) :
    m.lookup (newKeyName k m) = none :=
  (newKeyName_core ((m.map (fun p => p.1.length + 1)).sum - k.length) k m
    (Nat.le_refl _)).1

/-- `parseURIloop` never disturbs a key that is already present. -/
theorem parseURIloop_keeps (tp : TimeParse) (cfg : Viper) :
    ∀ (q : List (String × List String)) (v : Event) (key : String),
      (v.lookup key).isSome = true →
      (parseURIloop tp cfg q v).lookup key = v.lookup key := by
  intro q
  induction q with
  | nil =>
    intro v key hv
    rfl
  | cons kv rest ih =>
    intro v key hv
    obtain ⟨k, kvs⟩ := kv
    simp only [parseURIloop]
    have hfree : v.lookup (newKeyName k v) = none := newKeyName_not_found k v
    have hne : key ≠ newKeyName k v := by
      intro he
      rw [he, hfree] at hv
      cases hv
    cases hig : shouldIgnore cfg (newKeyName k v) with
    | true =>
      simp only [hig, Bool.not_true]
      rw [if_neg (by simp)]
      exact ih v key hv
    | false =>
      simp only [hig, Bool.not_false, if_true]
      cases kvs with
      | nil => exact ih v key hv
      | cons k0 ks =>
        have hv1 : ((mapSet v (newKeyName k v) (parseString tp k0 cfg)).lookup key).isSome = true := by
          rw [lookup_mapSet_ne _ hne]
          exact hv
        rw [ih _ key hv1]
        exact lookup_mapSet_ne _ hne

/-- `ParseURI` never disturbs a key that is already present. -/
theorem ParseURI_keeps (tp : TimeParse) (uq : UriQuery) (cfg : Viper)
    (uri : String) (v : Event) (key : String)
    (hv : (v.lookup key).isSome = true) :
    (ParseURI tp uq cfg uri v).lookup key = v.lookup key := by
  unfold ParseURI
  by_cases hu : uri ≠ ""
  · rw [if_pos hu]
    cases uq uri with
    | some q => exact parseURIloop_keeps tp cfg q v key hv
    | none => rfl
  · rw [if_neg hu]

/-- `parseURIloop` never inserts a key the configuration ignores. -/
theorem parseURIloop_keeps_none (tp : TimeParse) (cfg : Viper) :
    ∀ (q : List (String × List String)) (v : Event) (key : String),
      shouldIgnore cfg key = true → v.lookup key = none →
      (parseURIloop tp cfg q v).lookup key = none := by
  intro q
  induction q with
  | nil =>
    intro v key _ hv
    exact hv
  | cons kv rest ih =>
    intro v key hig hv
    obtain ⟨k, kvs⟩ := kv
    simp only [parseURIloop]
    cases hig2 : shouldIgnore cfg (newKeyName k v) with
    | true =>
      simp only [hig2, Bool.not_true]
      rw [if_neg (by simp)]
      exact ih v key hig hv
    | false =>
      have hne : key ≠ newKeyName k v := by
        intro he
        rw [← he] at hig2
        rw [hig] at hig2
        cases hig2
      simp only [hig2, Bool.not_false, if_true]
      cases kvs with
      | nil => exact ih v key hig hv
      | cons k0 ks =>
        refine ih _ key hig ?_
        rw [lookup_mapSet_ne _ hne]
        exact hv

/-- `ParseURI` never inserts a key the configuration ignores. -/
theorem ParseURI_keeps_none (tp : TimeParse) (uq : UriQuery) (cfg : Viper)
    (uri : String) (v : Event) (key : String)
    (hig : shouldIgnore cfg key = true) (hv : v.lookup key = none) :
    (ParseURI tp uq cfg uri v).lookup key = none := by
  unfold ParseURI
  by_cases hu : uri ≠ ""
  · rw [if_pos hu]
    cases uq uri with
    | some q => exact parseURIloop_keeps_none tp cfg q v key hig hv
    | none => exact hv
  · rw [if_neg hu]
    exact hv

/-- One `ParseEvents` loop step never inserts an ignored key. -/
theorem parseEventsStep_keeps_none (tp : TimeParse) (uq : UriQuery)
    (cfg : Viper) (v : Event) (p : String × String) (key : String)
    (hig : shouldIgnore cfg key = true) (hv : v.lookup key = none) :
    (parseEventsStep tp uq cfg v p).lookup key = none := by
  obtain ⟨name, sub⟩ := p
  simp only [parseEventsStep]
  have hv1 : ((if !shouldIgnore cfg name then
      mapSet v name (parseString tp sub cfg) else v)).lookup key = none := by
    cases hn : shouldIgnore cfg name with
    | true =>
      simp only [hn, Bool.not_true]
      rw [if_neg (by simp)]
      exact hv
    | false =>
      have hne : key ≠ name := by
        intro he
        rw [← he] at hn
        rw [hig] at hn
        cases hn
      simp only [hn, Bool.not_false, if_true]
      rw [lookup_mapSet_ne _ hne]
      exact hv
  cases hu : name == "uri" with
  | true =>
    rw [if_pos rfl]
    exact ParseURI_keeps_none tp uq cfg sub _ key hig hv1
  | false =>
    rw [if_neg (by simp)]
    exact hv1

/-- The full `ParseEvents` loop never inserts an ignored key. -/
theorem parseEventsLoop_keeps_none (tp : TimeParse) (uq : UriQuery)
    (cfg : Viper) :
    ∀ (pairs : List (String × String)) (v : Event) (key : String),
      shouldIgnore cfg key = true → v.lookup key = none →
      (parseEventsLoop tp uq cfg pairs v).lookup key = none := by
  intro pairs
  induction pairs with
  | nil =>
    intro v key _ hv
    exact hv
  | cons p rest ih =>
    intro v key hig hv
    simp only [parseEventsLoop]
    exact ih _ key hig (parseEventsStep_keeps_none tp uq cfg v p key hig hv)

/-- C7: a field whose name is listed in `parse.keys_to_ignore` never appears
as a key of the event `ParseEvents` returns, whether it would come from a
top-level capture group or from URI query expansion. -/
theorem ignored_keys_absent (tp : TimeParse) (uq : UriQuery)
    (worker : LogParser) (line : String) (ev : Event) (key : String)
    (hk : key ∈ getStringSlice worker.config configParseKeysToIgnore)
    (hok : ParseEvents tp uq worker line = .ok ev) :
    ev.lookup key = none := by
  have hig := shouldIgnore_of_mem hk
  obtain ⟨cfg, oreg⟩ := worker
  cases oreg with
  | none => simp [ParseEvents] at hok
  | some regex =>
    simp only [ParseEvents] at hok
    cases hm : regex.findSubmatch line with
    | none =>
      rw [hm] at hok
      simp at hok
    | some mtch =>
      rw [hm] at hok
      simp only [ParseResult.ok.injEq] at hok
      rw [← hok]
      exact parseEventsLoop_keeps_none tp uq _ _ [] key hig rfl

/-- Witness for C7: with `parse.keys_to_ignore = ["secret"]` and a pattern
whose only named group is `secret`, the parsed event of a matching line
contains no `secret` key (the event is in fact empty). -/
theorem ignored_keys_absent_witness :
    "secret" ∈ getStringSlice [(configParseKeysToIgnore, VVal.strs ["secret"])]
      configParseKeysToIgnore ∧
    ParseEvents (fun _ _ => none) (fun _ => none)
      { config := [(configParseKeysToIgnore, VVal.strs ["secret"])],
        regex := some { subexpNames := ["", "secret"],
                        findSubmatch := fun l =>
                          if l = "x y" then some ["x y", "y"] else none } }
      "x y" = .ok [] ∧
    (List.lookup "secret" ([] : Event)) = none := by
  refine ⟨by decide, by decide, ?_⟩
  exact ignored_keys_absent (fun _ _ => none) (fun _ => none)
    { config := [(configParseKeysToIgnore, VVal.strs ["secret"])],
      regex := some { subexpNames := ["", "secret"],
                      findSubmatch := fun l =>
                        if l = "x y" then some ["x y", "y"] else none } }
    "x y" [] "secret" (by decide) (by decide)

/-- C4 counterexample: with the pattern `(?P<uri>\S+) (?P<q>\S+)` on the line
`/x?q=1 hello` the URI expansion first stores `q = 1`; when the top-level
group `q` is then processed the code stores it under the plain name `q`,
overwriting the URI-expanded field, and no fresh name `_q` is created —
the Key Namer is not consulted for top-level groups, contrary to the claim. -/
theorem key_namer_counterexample :
    c4Result.isOk = true ∧
    c4Result.okLookup "q" = some (.text "hello") ∧
    c4Result.okLookup "_q" = none := by
  have hnk : newKeyName "q" [("uri", Value.text "/x?q=1")] = "q" := by
    rw [newKeyName]
    rw [dif_neg (by decide)]
  have huri : parseURIloop (fun _ _ => none) [] [("q", ["1"])]
      [("uri", Value.text "/x?q=1")]
      = [("q", Value.int 1), ("uri", Value.text "/x?q=1")] := by
    simp only [parseURIloop]
    rw [hnk]
    rfl
  have hexp : c4Result = ParseResult.ok (parseEventsLoop (fun _ _ => none) c4UriQuery []
      [("q", "hello")]
      (parseURIloop (fun _ _ => none) [] [("q", ["1"])]
        [("uri", Value.text "/x?q=1")])) := rfl
  have hstep : c4Result = ParseResult.ok
      [("q", Value.text "hello"), ("q", Value.int 1), ("uri", Value.text "/x?q=1")] := by
    rw [hexp, huri]
    rfl
  rw [hstep]
  refine ⟨rfl, rfl, rfl⟩

/-- C4 amended: for every matching line and every non-ignored named capture
group, `ParseEvents` stores the inferred value directly under the group name
itself, overwriting any field already present under that name (including a
URI-expanded one); the Key Namer is consulted only for URI-expanded fields. -/
theorem top_level_group_overwrites (tp : TimeParse) (uq : UriQuery)
    (cfg : Viper) (v : Event) (name sub : String)
    (h : shouldIgnore cfg name = false) :
    (parseEventsStep tp uq cfg v (name, sub)).lookup name =
      some (parseString tp sub cfg) := by
  simp only [parseEventsStep, h, Bool.not_false, if_true]
  cases hu : name == "uri" with
  | true =>
    rw [if_pos rfl]
    rw [ParseURI_keeps]
    · exact lookup_mapSet_self v name _
    · rw [lookup_mapSet_self]
      rfl
  | false =>
    rw [if_neg (by simp)]
    exact lookup_mapSet_self v name _

/-- Witness for C4 amended: a group `q` with captured text `hello`, applied
to an event that already holds `q = 1`, ends with `q` bound to the text
`hello` — the old binding is overwritten rather than renamed. -/
theorem top_level_group_overwrites_witness :
    shouldIgnore [] "q" = false ∧
    (parseEventsStep (fun _ _ => none) (fun _ => none) []
        [("q", Value.int 1)] ("q", "hello")).lookup "q" =
      some (Value.text "hello") :=
  ⟨by decide,
    (top_level_group_overwrites (fun _ _ => none) (fun _ => none) []
        [("q", Value.int 1)] "q" "hello" (by decide)).trans (by decide)⟩

/-- C8: `newKeyName` terminates on every candidate and finite event, never
returns a key already present in the event, and on a collision returns the
candidate prefixed by the minimal sufficient number of leading underscores
(every shorter underscore run is still a present key). -/
theorem newKeyName_unique_minimal (k : String) (m : Event) :
    m.lookup (newKeyName k m) = none ∧
      ∃ n, newKeyName k m = underscores n ++ k ∧
        ∀ j, j < n → (m.lookup (underscores j ++ k)).isSome = true :=
  newKeyName_core ((m.map (fun p => p.1.length + 1)).sum - k.length) k m
    (Nat.le_refl _)

/-- C1 (code bug): after `Init` fails to compile the configured pattern
(pattern `"("`), the regex field of the worker is still nil, and the next `ParseEvents`
call dereferences it and panics (crashes the process) instead of returning
an error as the spec describes. -/
theorem failed_pattern_compile_crashes :
    (Init (fun _ => none)
        { config := [(configParsePattern, VVal.str "(")], regex := none }).regex
      = none ∧
    ParseEvents (fun _ _ => none) (fun _ => none)
      (Init (fun _ => none)
        { config := [(configParsePattern, VVal.str "(")], regex := none })
      "x" = .crash :=
  ⟨rfl, rfl⟩

/-- C2 (code bug): `convertConfig` reads the misspelled key
`tail.from_beginng`, so a configuration that sets `tail.from_beginning`
still gets a seek-to-end location — the tailing source does not start at
start-of-file as the spec says. -/
theorem tail_from_beginning_ignored :
    getBool [("tail.from_beginning", VVal.bool true)] "tail.from_beginning" = true ∧
    (convertConfig [("tail.from_beginning", VVal.bool true)]).location =
      some { offset := 0, whence := .seekEnd } := by
  decide

/-- C3 (code bug): `convertConfig` tests `IsSet("tail.reopen")` but then
reads the value of `configTailReopen = "time.reopen"`, so with
`tail.reopen = true` (and `time.reopen` unset) the produced tail
configuration has `ReOpen = false`, not the configured value. -/
theorem tail_reopen_reads_wrong_key :
    isSet [("tail.reopen", VVal.bool true)] "tail.reopen" = true ∧
    getBool [("tail.reopen", VVal.bool true)] "tail.reopen" = true ∧
    configTailReopen = "time.reopen" ∧
    (convertConfig [("tail.reopen", VVal.bool true)]).reOpen = false := by
  decide

/-- C5: before every write the sink re-evaluates the output handle. When the
configured path differs from the cached one, the previous handle is closed
(`closed` lists it); if the new path opens, the worker switches to a fresh
open handle on that path and the write appends the line and a newline there;
if opening fails, no file content changes, the failure is reported, the
cached name and (now closed) handle stay, and the `Work` loop goes on with
the remaining queue either way. -/
theorem sink_handle_reevaluated (cfg : Viper) (openable : String → Bool)
    (marshal : Event → Option String) (fs : Fs) (w : FileWorkerState)
    (obj : Event) (line : String)
    (hm : marshal obj = some line)
    (hchange : ConfiguredFileOutputName cfg ≠ w.outFileName) :
    (workStep cfg openable marshal fs w obj).closed = w.out.toList ∧
    (openable (ConfiguredFileOutputName cfg) = true →
      (workStep cfg openable marshal fs w obj).state =
        { outFileName := ConfiguredFileOutputName cfg,
          out := some { path := ConfiguredFileOutputName cfg, isOpen := true } } ∧
      (workStep cfg openable marshal fs w obj).fs =
        fsAppend (fsAppend fs (ConfiguredFileOutputName cfg) line)
          (ConfiguredFileOutputName cfg) "\n") ∧
    (openable (ConfiguredFileOutputName cfg) = false →
      (workStep cfg openable marshal fs w obj).fs = fs ∧
      (workStep cfg openable marshal fs w obj).state.outFileName = w.outFileName ∧
      (workStep cfg openable marshal fs w obj).state.out =
        w.out.map (fun h => { h with isOpen := false }) ∧
      (workStep cfg openable marshal fs w obj).warnings ≠ []) ∧
    (∀ rest, Work openable marshal ((cfg, obj) :: rest) fs w =
      Work openable marshal rest (workStep cfg openable marshal fs w obj).fs
        (workStep cfg openable marshal fs w obj).state) := by
  cases hop : openable (ConfiguredFileOutputName cfg) with
  | true =>
    have hw : workStep cfg openable marshal fs w obj =
        { fs := fsAppend (fsAppend fs (ConfiguredFileOutputName cfg) line)
            (ConfiguredFileOutputName cfg) "\n",
          state := { outFileName := ConfiguredFileOutputName cfg,
                     out := some { path := ConfiguredFileOutputName cfg, isOpen := true } },
          closed := w.out.toList,
          warnings := [] } := by
      simp only [workStep, hm, CachedFileHandle, if_pos hchange, hop, if_true]
      simp [writeString, fsAppend]
    rw [hw]
    refine ⟨rfl, fun _ => ⟨rfl, rfl⟩, fun hfalse => absurd hfalse (by simp),
      fun rest => ?_⟩
    simp only [Work]
    rw [hw]
  | false =>
    have hw : workStep cfg openable marshal fs w obj =
        { fs := fs,
          state := { w with out := w.out.map (fun h => { h with isOpen := false }) },
          closed := w.out.toList,
          warnings := ["Unable to create output file " ++ ConfiguredFileOutputName cfg] } := by
      simp only [workStep, hm, CachedFileHandle, if_pos hchange, hop,
        Bool.false_eq_true, if_false]
      cases hout : w.out with
      | none => simp [writeString]
      | some h => simp [writeString]
    rw [hw]
    refine ⟨rfl, fun htrue => absurd htrue (by simp), fun _ => ⟨rfl, rfl, rfl, by simp⟩,
      fun rest => ?_⟩
    simp only [Work]
    rw [hw]

/-- Witness for C5: with the default output path configured, a worker whose
cached path is `old` and an unopenable disk, one work step writes nothing,
keeps the old cached name, and reports a warning. -/
theorem sink_handle_reevaluated_witness :
    (ConfiguredFileOutputName [] ≠ ("old" : String)) ∧
    (workStep [] (fun _ => false) (fun _ => some "x") []
        { outFileName := "old", out := some { path := "old", isOpen := true } }
        []).fs = ([] : Fs) ∧
    (workStep [] (fun _ => false) (fun _ => some "x") []
        { outFileName := "old", out := some { path := "old", isOpen := true } }
        []).warnings ≠ [] := by
  have h := sink_handle_reevaluated [] (fun _ => false) (fun _ => some "x") []
    { outFileName := "old", out := some { path := "old", isOpen := true } }
    [] "x" rfl (by decide)
  exact ⟨by decide, (h.2.2.1 rfl).1, (h.2.2.1 rfl).2.2.2⟩

/-- C6: `parseString` is deterministic and total (it is a function into the
five-constructor type `Value`), and it refines the documented resolution
order: first success among the configured time patterns followed by the
fixed fallback formats, then the 64-bit integer parse, the boolean parse,
the 64-bit float parse with NaN mapped to float zero, else the unchanged
text — i.e. it coincides with the spec-side `inferSpec`. -/
theorem parseString_eq_inferSpec (tp : TimeParse) (ts : String) (cfg : Viper) :
    parseString tp ts cfg = inferSpec tp ts (getStringSlice cfg configParseTimePatterns) := by
  unfold parseString inferSpec
  rw [List.findSome?_append]
  cases h0 : (getStringSlice cfg configParseTimePatterns).findSome?
      (fun timePattern => tp timePattern ts) with
  | some t => rfl
  | none =>
    simp only [Option.none_or, fallbackFormats, List.findSome?_cons, List.findSome?_nil]
    cases tp nginxFormat ts with
    | some t => rfl
    | none =>
    cases tp timeANSIC ts with
    | some t => rfl
    | none =>
    cases tp timeUnixDate ts with
    | some t => rfl
    | none =>
    cases tp timeRubyDate ts with
    | some t => rfl
    | none =>
    cases tp timeRFC822 ts with
    | some t => rfl
    | none =>
    cases tp timeRFC822Z ts with
    | some t => rfl
    | none =>
    cases tp timeRFC850 ts with
    | some t => rfl
    | none =>
    cases tp timeRFC1123 ts with
    | some t => rfl
    | none =>
    cases tp timeRFC1123Z ts with
    | some t => rfl
    | none =>
    cases tp timeRFC3339 ts with
    | some t => rfl
    | none =>
    cases tp timeRFC3339Nano ts with
    | some t => rfl
    | none =>
    cases parseInt64 ts with
    | some i => rfl
    | none =>
    cases parseBool ts with
    | some b => rfl
    | none =>
    cases parseFloat64 ts with
    | none => rfl
    | some f => cases f <;> rfl

/-- Scanning a list with a constantly failing body finds nothing. -/
theorem findSome?_const_none {a b : Type} (l : List a) :
    l.findSome? (fun _ => (none : Option b)) = none :=
  List.findSome?_eq_none_iff.mpr (fun _ _ => rfl)

/-- C9: whenever every time format fails on the text and the integer and
boolean parses fail but the float parse yields NaN, `parseString` returns
the float zero, never the NaN value. -/
theorem infer_nan_is_float_zero (tp : TimeParse) (ts : String) (cfg : Viper)
    (htime : ∀ layout, tp layout ts = none)
    (hint : parseInt64 ts = none)
    (hbool : parseBool ts = none)
    (hfloat : parseFloat64 ts = some .nan) :
    parseString tp ts cfg = .float (.num 0) ∧
      parseString tp ts cfg ≠ .float .nan := by
  have hps : parseString tp ts cfg = .float (.num 0) := by
    simp [parseString, htime, findSome?_const_none, hint, hbool, hfloat, GoFloat.isNaN]
  refine ⟨hps, ?_⟩
  rw [hps]
  decide

/-- Witness for C9: on the literal text `NaN` (which no fallback layout
parses) the float parse yields NaN and the inferencer returns float zero. -/
theorem infer_nan_witness :
    parseFloat64 "NaN" = some .nan ∧
    parseString (fun _ _ => none) "NaN" [] = .float (.num 0) :=
  ⟨by decide,
    (infer_nan_is_float_zero (fun _ _ => none) "NaN" []
      (fun _ => rfl) (by decide) (by decide) (by decide)).1⟩

/-- `parseBool` succeeds exactly on the canonical Go forms. -/
theorem parseBool_some_iff (ts : String) :
    (parseBool ts).isSome = true ↔ ts ∈ goBoolForms := by
  unfold parseBool goBoolForms
  split_ifs with h1 h2 <;> simp <;> tauto

/-- C10 amended: for every text reaching the boolean step (all time formats
and the integer parse failing), the inferencer returns a boolean exactly
when the text is one of the canonical strconv forms
1/t/T/TRUE/true/True/0/f/F/FALSE/false/False — not for every casing of
true/false. -/
theorem bool_step_canonical_forms (tp : TimeParse) (ts : String) (cfg : Viper)
    (htime : ∀ layout, tp layout ts = none)
    (hint : parseInt64 ts = none) :
    (∃ b, parseString tp ts cfg = .bool b) ↔ ts ∈ goBoolForms := by
  rw [← parseBool_some_iff]
  constructor
  · rintro ⟨b, hb⟩
    simp only [parseString, htime, findSome?_const_none, hint] at hb
    cases hpb : parseBool ts with
    | some b2 => simp [hpb]
    | none =>
      simp only [hpb] at hb
      exfalso
      cases hf : parseFloat64 ts with
      | none =>
        simp only [hf] at hb
        simp at hb
      | some f =>
        simp only [hf] at hb
        cases hn : f.isNaN with
        | true => simp [hn] at hb
        | false => simp [hn] at hb
  · intro hsome
    obtain ⟨b, hb⟩ := Option.isSome_iff_exists.mp hsome
    refine ⟨b, ?_⟩
    simp only [parseString, htime, findSome?_const_none, hint, hb]

/-- Witness for C10 amended: `t` reaches the boolean step and is accepted
as a canonical form, so the inferencer returns a boolean for it. -/
theorem bool_step_canonical_forms_witness :
    parseInt64 "t" = none ∧ "t" ∈ goBoolForms ∧
    (∃ b, parseString (fun _ _ => none) "t" [] = .bool b) :=
  ⟨by decide, by decide,
    (bool_step_canonical_forms (fun _ _ => none) "t" [] (fun _ => rfl)
      (by decide)).mpr (by decide)⟩

/-- C10 counterexample: `tRuE` is a casing of `true` (its ASCII lowering is
the string `true`), no time format or integer parse claims it, yet the
inferencer returns it as text, not as a boolean — the boolean step is not
case-insensitive. -/
theorem bool_not_case_insensitive :
    asciiLower "tRuE" = "true" ∧
    parseString (fun _ _ => none) "tRuE" [] = .text "tRuE" :=
  ⟨by decide, by decide⟩
